import Mathlib

/-!
Shallow embedding of the gridworld MDP model and its value-iteration solver
(`mdp.py`).  States are integer pairs `(x, y)`; Python dictionaries holding
utilities are modelled as total functions `GState → ℚ` (the reference code
only ever reads keys it has written, and the `defaultdict(float)` and
`dict.get(_, 0.0)` lookups default to `0`); real arithmetic is modelled
exactly by `ℚ`.  The unbounded `while True` loop of `value_iteration` is
modelled with explicit fuel, returning `none` when the fuel is exhausted
before the convergence test succeeds.
-/

namespace Gridworld

/-- A grid state `(x, y)`, as the Python `(x, y)` tuples. -/
abbrev GState := ℤ × ℤ

/-- The four actions `['up', 'right', 'down', 'left']` of `mdp.py`, as a
closed enumeration instead of strings. -/
inductive Act where
  | up
  | right
  | down
  | left
deriving DecidableEq, Repr

/-- The immutable MDP configuration built by `MDP.__init__`.  The derived
`states` field of the Python constructor is recomputed by `MDP.get_states`
below; the `rewards` dictionary is an association list. -/
structure MDP where
  nrows : ℕ
  ncols : ℕ
  rewards : List (GState × ℚ)
  terminals : List GState
  prob_forw : ℚ
  prob_side : ℚ
  reward_def : ℚ
deriving Repr

/-- Embeds `MDP.get_states`: the state list built in `__init__` by
`for i in range(num_cols): for j in range(num_rows): states.append((i+1, j+1))`
and returned unchanged by `get_states`. -/
def MDP.get_states (m : MDP) : List GState :=
  (List.range m.ncols).flatMap fun (i : ℕ) =>
    (List.range m.nrows).map fun (j : ℕ) => ((i : ℤ) + 1, (j : ℤ) + 1)

/-- Embeds `MDP.get_actions`: always the fixed four-action list. -/
def MDP.get_actions (_m : MDP) (_state : GState) : List Act :=
  [Act.up, Act.right, Act.down, Act.left]

/-- Embeds `MDP.is_terminal`: the membership test `state in self.terminals`. -/
def MDP.is_terminal (m : MDP) (state : GState) : Bool :=
  decide (state ∈ m.terminals)

/-- Equality-based association-list lookup, modelling a Python dictionary
read `d.get(s, default)` (the `none` case is the missing-key default). -/
def lookup : List (GState × ℚ) → GState → Option ℚ
  | [], _ => none
  | p :: rest, s => if p.1 = s then some p.2 else lookup rest s

/-- Embeds `MDP.get_reward`: `self.rewards.get(state, self.reward_def)`. -/
def MDP.get_reward (m : MDP) (state : GState) : ℚ :=
  match lookup m.rewards state with
  | some v => v
  | none => m.reward_def

/-- Embeds `succ_up = (x, min(self.nrows, y+1))` (line 59 of `mdp.py`). -/
def MDP.succ_up (m : MDP) (s : GState) : GState :=
  (s.1, min (m.nrows : ℤ) (s.2 + 1))

/-- Embeds `succ_right = (min(self.ncols, x+1), y)` (line 60 of `mdp.py`). -/
def MDP.succ_right (m : MDP) (s : GState) : GState :=
  (min (m.ncols : ℤ) (s.1 + 1), s.2)

/-- Embeds `succ_down = (x, max(1, y-1))` (line 61 of `mdp.py`). -/
def MDP.succ_down (_m : MDP) (s : GState) : GState :=
  (s.1, max 1 (s.2 - 1))

/-- Embeds `succ_left = (max(1, x-1), y)` (line 62 of `mdp.py`). -/
def MDP.succ_left (_m : MDP) (s : GState) : GState :=
  (max 1 (s.1 - 1), s.2)

/-- Assignment `d[k] = v` on a dictionary modelled as a total function. -/
def dset (d : GState → ℚ) (k : GState) (v : ℚ) : GState → ℚ :=
  fun t => if t = k then v else d t

/-- Accumulation `d[k] += v` on a `defaultdict(float)` modelled as a total
function (absent keys read as `0`, which the function already returns). -/
def dadd (d : GState → ℚ) (k : GState) (v : ℚ) : GState → ℚ :=
  fun t => if t = k then d t + v else d t

/-- Embeds `MDP.get_transition_prob`: returns `0` from a terminal state,
otherwise builds the `succ__prob` default-dictionary exactly as the four
branches of `mdp.py` lines 64–80 do (`=` for the forward successor, `+=`
for the two side successors) and reads it back with default `0.0`
(line 81; reading the total function already defaults to `0`). -/
def MDP.get_transition_prob (m : MDP) (state : GState) (action : Act)
    (successor_state : GState) : ℚ :=
  if m.is_terminal state then 0
  else
    let succ__prob : GState → ℚ :=
      match action with
      | Act.up =>
          dadd (dadd (dset (fun _ => 0) (m.succ_up state) m.prob_forw)
            (m.succ_right state) m.prob_side) (m.succ_left state) m.prob_side
      | Act.right =>
          dadd (dadd (dset (fun _ => 0) (m.succ_right state) m.prob_forw)
            (m.succ_up state) m.prob_side) (m.succ_down state) m.prob_side
      | Act.down =>
          dadd (dadd (dset (fun _ => 0) (m.succ_down state) m.prob_forw)
            (m.succ_right state) m.prob_side) (m.succ_left state) m.prob_side
      | Act.left =>
          dadd (dadd (dset (fun _ => 0) (m.succ_left state) m.prob_forw)
            (m.succ_up state) m.prob_side) (m.succ_down state) m.prob_side
    succ__prob successor_state

/-- Embeds `MDP.get_transition_probs`: for each action (in the fixed order),
the accumulated sum `Σ_succ get_transition_prob(state, a, succ) * utility[succ]`
over `get_states()`, as the nested loops of `mdp.py` lines 91–99. -/
def MDP.get_transition_probs (m : MDP) (state : GState)
    (utility : GState → ℚ) : List ℚ :=
  (m.get_actions state).map fun a =>
    m.get_states.foldl
      (fun acc succs => acc + m.get_transition_prob state a succs * utility succs) 0

/-- Python's built-in `max` on a list (a left fold of binary `max` over the
elements; the reference code only applies it to the non-empty four-entry
list produced by `get_transition_probs`, so the `[]` case is unreachable
and arbitrarily returns `0`). -/
def pymax : List ℚ → ℚ
  | [] => 0
  | x :: xs => xs.foldl max x

/-- Embeds the right-hand side of line 120 of `mdp.py`:
`mdp.get_reward(state) + gamma * max(mdp.get_transition_probs(state, utility))`. -/
def bellman (m : MDP) (gamma : ℚ) (utility : GState → ℚ) (state : GState) : ℚ :=
  m.get_reward state + gamma * pymax (m.get_transition_probs state utility)

/-- Embeds the body of the `for state in mdp.get_states()` loop of
`value_iteration` (lines 119–122): walks the remaining states, assigning
`utility_step[state] = bellman(...)` (reading only the snapshot `utility`)
and raising `delta` to `|utility_step[state] - utility[state]|` whenever
that exceeds the running value. -/
def sweep_aux (m : MDP) (gamma : ℚ) (utility : GState → ℚ) :
    List GState → (GState → ℚ) → ℚ → (GState → ℚ) × ℚ
  | [], utility_step, delta => (utility_step, delta)
  | s :: rest, utility_step, delta =>
      let v := bellman m gamma utility s
      let delta' := if |v - utility s| > delta then |v - utility s| else delta
      sweep_aux m gamma utility rest (dset utility_step s v) delta'

/-- One full iteration of the `while True` body: snapshot
`utility = utility_step.copy()`, reset `delta = 0`, then run the state loop.
Returns the updated `utility_step` buffer and the final `delta`. -/
def sweep (m : MDP) (gamma : ℚ) (utility_step : GState → ℚ) :
    (GState → ℚ) × ℚ :=
  sweep_aux m gamma utility_step m.get_states utility_step 0

/-- Embeds the `while True` loop of `value_iteration` (lines 117–124), with
fuel: run one sweep; if its `delta` fell below `epsilon`, return the
snapshot `utility` taken at the start of that sweep (which is the loop
argument `utility_step` itself, copied before the sweep overwrites it),
otherwise continue with the newly written buffer. -/
def vi_loop (m : MDP) (gamma epsilon : ℚ) : ℕ → (GState → ℚ) → Option (GState → ℚ)
  | 0, _ => none
  | fuel + 1, utility_step =>
      let p := sweep m gamma utility_step
      if p.2 < epsilon then some utility_step
      else vi_loop m gamma epsilon fuel p.1

/-- Embeds the initial dictionary `{s: 0 for s in mdp.get_states()}`,
modelled as the constant-zero function (the code never reads a key outside
`get_states()`). -/
def viInit : GState → ℚ := fun _ => 0

/-- Embeds `value_iteration(mdp, gamma, epsilon)` with explicit fuel
bounding the number of sweeps; `none` means the loop had not yet
terminated within the fuel. -/
def value_iteration (fuel : ℕ) (m : MDP) (gamma epsilon : ℚ) :
    Option (GState → ℚ) :=
  vi_loop m gamma epsilon fuel viInit

/-- The sequence of `utility_step` buffers produced by successive sweeps,
starting from the all-zero initialisation. -/
def iterateVI (m : MDP) (gamma : ℚ) : ℕ → (GState → ℚ)
  | 0 => viInit
  | k + 1 => (sweep m gamma (iterateVI m gamma k)).1

/-- The 1×2 concrete scenario of the specification: `numRows=1, numCols=2`,
terminal state `(2,1)` with reward `10`, default reward `0`,
`probForward=1, probSide=0`. -/
def ex2M : MDP :=
  { nrows := 1, ncols := 2, rewards := [((2, 1), 10)], terminals := [(2, 1)],
    prob_forw := 1, prob_side := 0, reward_def := 0 }

/-- A 1×1 grid with no terminal state and default reward `1`: every sweep
writes utility `1 + gamma * previous` for the single state. -/
def cexM : MDP :=
  { nrows := 1, ncols := 1, rewards := [], terminals := [],
    prob_forw := 1, prob_side := 0, reward_def := 1 }

/-- A 1×1 grid whose single state is terminal with reward `1`. -/
def cexT : MDP :=
  { nrows := 1, ncols := 1, rewards := [((1, 1), 1)], terminals := [(1, 1)],
    prob_forw := 1, prob_side := 0, reward_def := 0 }

/-- The buffer produced by the second sweep of value iteration on `ex2M`
with discount `9/10`: utility `9` at `(1,1)` and `10` at `(2,1)`. -/
def u2ex : GState → ℚ :=
  (sweep ex2M (9/10) ((sweep ex2M (9/10) viInit).1)).1

/-! ### Characterisation of the state enumeration -/

theorem mem_get_states (m : MDP) (x y : ℤ) :
    (x, y) ∈ m.get_states ↔
      1 ≤ x ∧ x ≤ (m.ncols : ℤ) ∧ 1 ≤ y ∧ y ≤ (m.nrows : ℤ) := by
  simp only [MDP.get_states, List.mem_flatMap, List.mem_map, List.mem_range]
  constructor
  · rintro ⟨i, hi, j, hj, h⟩
    obtain ⟨hx, hy⟩ : (i : ℤ) + 1 = x ∧ (j : ℤ) + 1 = y := by
      simpa [Prod.ext_iff] using h
    omega
  · rintro ⟨h1, h2, h3, h4⟩
    refine ⟨(x - 1).toNat, ?_, (y - 1).toNat, ?_, ?_⟩
    · omega
    · omega
    · simp only [Prod.mk.injEq]
      constructor <;> omega

theorem get_states_nodup (m : MDP) : m.get_states.Nodup := by
  refine List.nodup_flatMap.2 ⟨fun i _ => ?_, ?_⟩
  · refine (List.nodup_range _).map ?_
    intro a b h
    have : (a : ℤ) + 1 = (b : ℤ) + 1 := by simpa [Prod.ext_iff] using h
    omega
  · refine (List.nodup_range _).imp ?_
    intro i j hij p hp hq
    have hpi : p.1 = (i : ℤ) + 1 := by
      simp only [List.mem_map] at hp
      obtain ⟨a, _, rfl⟩ := hp
      rfl
    have hpj : p.1 = (j : ℤ) + 1 := by
      simp only [List.mem_map] at hq
      obtain ⟨b, _, rfl⟩ := hq
      rfl
    exact hij (by omega)

/-! ### Sums of indicator functions over the state list -/

theorem sum_ite_of_notMem (l : List GState) (c : GState) (v : ℚ) (h : c ∉ l) :
    (l.map fun t => if t = c then v else 0).sum = 0 := by
  induction l with
  | nil => simp
  | cons s rest ih =>
    have hs : s ≠ c := fun hc => h (hc ▸ List.mem_cons_self s rest)
    have hrest : c ∉ rest := fun hc => h (List.mem_cons_of_mem _ hc)
    simp [hs, ih hrest]

theorem sum_ite_of_nodup_mem (l : List GState) (c : GState) (v : ℚ)
    (hn : l.Nodup) (h : c ∈ l) :
    (l.map fun t => if t = c then v else 0).sum = v := by
  induction l with
  | nil => cases h
  | cons s rest ih =>
    rcases List.mem_cons.1 h with h | h
    · subst h
      have hnr : c ∉ rest := (List.nodup_cons.1 hn).1
      simp [sum_ite_of_notMem rest c v hnr]
    · have hs : s ≠ c := by
        rintro rfl
        exact (List.nodup_cons.1 hn).1 h
      simp [hs, ih (List.nodup_cons.1 hn).2 h]

theorem sum_map_add3 (f g h : GState → ℚ) (l : List GState) :
    (l.map fun t => f t + (g t + h t)).sum =
      (l.map f).sum + ((l.map g).sum + (l.map h).sum) := by
  induction l with
  | nil => simp
  | cons s rest ih =>
    simp only [List.map_cons, List.sum_cons, ih]
    ring

theorem foldl_add_eq (f : GState → ℚ) (l : List GState) (a : ℚ) :
    l.foldl (fun acc t => acc + f t) a = a + (l.map f).sum := by
  induction l generalizing a with
  | nil => simp
  | cons s rest ih =>
    simp only [List.foldl_cons, List.map_cons, List.sum_cons, ih]
    ring

/-! ### Pointwise form of the transition kernel -/

theorem transition_prob_up (m : MDP) (s : GState)
    (h : m.is_terminal s = false) (t : GState) :
    m.get_transition_prob s Act.up t =
      (if t = m.succ_up s then m.prob_forw else 0) +
      ((if t = m.succ_right s then m.prob_side else 0) +
       (if t = m.succ_left s then m.prob_side else 0)) := by
  simp only [MDP.get_transition_prob, h, Bool.false_eq_true, if_false, dadd, dset]
  split_ifs <;> ring

theorem transition_prob_right (m : MDP) (s : GState)
    (h : m.is_terminal s = false) (t : GState) :
    m.get_transition_prob s Act.right t =
      (if t = m.succ_right s then m.prob_forw else 0) +
      ((if t = m.succ_up s then m.prob_side else 0) +
       (if t = m.succ_down s then m.prob_side else 0)) := by
  simp only [MDP.get_transition_prob, h, Bool.false_eq_true, if_false, dadd, dset]
  split_ifs <;> ring

theorem transition_prob_down (m : MDP) (s : GState)
    (h : m.is_terminal s = false) (t : GState) :
    m.get_transition_prob s Act.down t =
      (if t = m.succ_down s then m.prob_forw else 0) +
      ((if t = m.succ_right s then m.prob_side else 0) +
       (if t = m.succ_left s then m.prob_side else 0)) := by
  simp only [MDP.get_transition_prob, h, Bool.false_eq_true, if_false, dadd, dset]
  split_ifs <;> ring

theorem transition_prob_left (m : MDP) (s : GState)
    (h : m.is_terminal s = false) (t : GState) :
    m.get_transition_prob s Act.left t =
      (if t = m.succ_left s then m.prob_forw else 0) +
      ((if t = m.succ_up s then m.prob_side else 0) +
       (if t = m.succ_down s then m.prob_side else 0)) := by
  simp only [MDP.get_transition_prob, h, Bool.false_eq_true, if_false, dadd, dset]
  split_ifs <;> ring

/-- The four wall-clamped candidate successors of an in-grid state are all
in the grid. -/
theorem succs_mem_get_states (m : MDP) (x y : ℤ)
    (h1 : 1 ≤ x) (h2 : x ≤ (m.ncols : ℤ)) (h3 : 1 ≤ y) (h4 : y ≤ (m.nrows : ℤ)) :
    m.succ_up (x, y) ∈ m.get_states ∧ m.succ_right (x, y) ∈ m.get_states ∧
    m.succ_down (x, y) ∈ m.get_states ∧ m.succ_left (x, y) ∈ m.get_states := by
  refine ⟨?_, ?_, ?_, ?_⟩ <;>
    simp only [MDP.succ_up, MDP.succ_right, MDP.succ_down, MDP.succ_left,
      mem_get_states] <;>
    omega

/-- Summing one forward indicator and two side indicators over the state
list yields `prob_forw + 2 * prob_side` whenever the three targets are
in-grid (each is counted exactly once because the enumeration has no
duplicates). -/
theorem sum_succ_prob (m : MDP) (fwd s1 s2 : GState)
    (hf : fwd ∈ m.get_states) (h1 : s1 ∈ m.get_states) (h2 : s2 ∈ m.get_states) :
    (m.get_states.map fun t =>
      (if t = fwd then m.prob_forw else 0) +
      ((if t = s1 then m.prob_side else 0) +
       (if t = s2 then m.prob_side else 0))).sum =
      m.prob_forw + 2 * m.prob_side := by
  rw [sum_map_add3,
    sum_ite_of_nodup_mem _ _ _ (get_states_nodup m) hf,
    sum_ite_of_nodup_mem _ _ _ (get_states_nodup m) h1,
    sum_ite_of_nodup_mem _ _ _ (get_states_nodup m) h2]
  ring

/-! ### Structure of one sweep -/

theorem vi_loop_succ (m : MDP) (gamma epsilon : ℚ) (n : ℕ) (u : GState → ℚ) :
    vi_loop m gamma epsilon (n + 1) u =
      if (sweep m gamma u).2 < epsilon then some u
      else vi_loop m gamma epsilon n (sweep m gamma u).1 := rfl

theorem sweep_aux_fst_notMem (m : MDP) (gamma : ℚ) (u : GState → ℚ) :
    ∀ (l : List GState) (ustep : GState → ℚ) (d : ℚ) (t : GState), t ∉ l →
      (sweep_aux m gamma u l ustep d).1 t = ustep t := by
  intro l
  induction l with
  | nil => intro ustep d t _; rfl
  | cons s rest ih =>
    intro ustep d t ht
    have hrest : t ∉ rest := fun hc => ht (List.mem_cons_of_mem _ hc)
    have hs : t ≠ s := fun hc => ht (hc ▸ List.mem_cons_self s rest)
    simp only [sweep_aux]
    rw [ih _ _ _ hrest]
    simp [dset, hs]

theorem sweep_aux_fst_mem (m : MDP) (gamma : ℚ) (u : GState → ℚ) :
    ∀ (l : List GState) (ustep : GState → ℚ) (d : ℚ) (t : GState), t ∈ l →
      (sweep_aux m gamma u l ustep d).1 t = bellman m gamma u t := by
  intro l
  induction l with
  | nil => intro _ _ t ht; cases ht
  | cons s rest ih =>
    intro ustep d t ht
    by_cases hmem : t ∈ rest
    · exact ih _ _ _ hmem
    · have hts : t = s := by
        rcases List.mem_cons.1 ht with h | h
        · exact h
        · exact absurd h hmem
      subst hts
      simp only [sweep_aux]
      rw [sweep_aux_fst_notMem m gamma u rest _ _ t hmem]
      simp [dset]

/-- The buffer written by one sweep holds the synchronous Bellman backup of
the snapshot at every enumerated state. -/
theorem sweep_fst (m : MDP) (gamma : ℚ) (u : GState → ℚ) (s : GState)
    (hs : s ∈ m.get_states) :
    (sweep m gamma u).1 s = bellman m gamma u s :=
  sweep_aux_fst_mem m gamma u m.get_states u 0 s hs

theorem sweep_aux_delta_mono (m : MDP) (gamma : ℚ) (u : GState → ℚ) :
    ∀ (l : List GState) (ustep : GState → ℚ) (d : ℚ),
      d ≤ (sweep_aux m gamma u l ustep d).2 := by
  intro l
  induction l with
  | nil => intro ustep d; exact le_refl d
  | cons s rest ih =>
    intro ustep d
    simp only [sweep_aux]
    refine le_trans ?_ (ih _ _)
    split_ifs with h
    · exact le_of_lt h
    · exact le_refl d

theorem sweep_aux_delta_bound (m : MDP) (gamma : ℚ) (u : GState → ℚ) :
    ∀ (l : List GState) (ustep : GState → ℚ) (d : ℚ) (t : GState), t ∈ l →
      |bellman m gamma u t - u t| ≤ (sweep_aux m gamma u l ustep d).2 := by
  intro l
  induction l with
  | nil => intro _ _ t ht; cases ht
  | cons s rest ih =>
    intro ustep d t ht
    rcases List.mem_cons.1 ht with h | h
    · subst h
      simp only [sweep_aux]
      refine le_trans ?_ (sweep_aux_delta_mono m gamma u rest _ _)
      split_ifs with hgt
      · exact le_refl _
      · exact le_of_not_lt hgt
    · exact ih _ _ _ h

/-- Each in-grid state changes by at most the sweep's reported `delta`. -/
theorem sweep_delta_bound (m : MDP) (gamma : ℚ) (u : GState → ℚ) (s : GState)
    (hs : s ∈ m.get_states) :
    |bellman m gamma u s - u s| ≤ (sweep m gamma u).2 :=
  sweep_aux_delta_bound m gamma u m.get_states u 0 s hs

/-! ### Structure of the solver loop -/

/-- Whatever map the loop returns, the sweep executed from it (the final
sweep) had `delta < epsilon`. -/
theorem vi_loop_delta (m : MDP) (gamma epsilon : ℚ) :
    ∀ (fuel : ℕ) (u r : GState → ℚ),
      vi_loop m gamma epsilon fuel u = some r →
      (sweep m gamma r).2 < epsilon := by
  intro fuel
  induction fuel with
  | zero => intro u r h; cases h
  | succ n ih =>
    intro u r h
    rw [vi_loop_succ] at h
    split_ifs at h with hlt
    · cases h
      exact hlt
    · exact ih _ _ h

/-- The loop returns either its starting buffer or the first component of
some sweep. -/
theorem vi_loop_sweep_or_eq (m : MDP) (gamma epsilon : ℚ) :
    ∀ (fuel : ℕ) (u r : GState → ℚ),
      vi_loop m gamma epsilon fuel u = some r →
      r = u ∨ ∃ w, r = (sweep m gamma w).1 := by
  intro fuel
  induction fuel with
  | zero => intro u r h; cases h
  | succ n ih =>
    intro u r h
    rw [vi_loop_succ] at h
    split_ifs at h with hlt
    · cases h
      exact Or.inl rfl
    · rcases ih _ _ h with heq | hex
      · exact Or.inr ⟨u, heq⟩
      · exact Or.inr hex

/-- Started on the `n`-th iterate, the loop returns the first subsequent
iterate whose following sweep converges. -/
theorem vi_loop_iterates (m : MDP) (gamma epsilon : ℚ) :
    ∀ (fuel n : ℕ) (r : GState → ℚ),
      vi_loop m gamma epsilon fuel (iterateVI m gamma n) = some r →
      ∃ k, n ≤ k ∧ k < n + fuel ∧ r = iterateVI m gamma k ∧
        (sweep m gamma (iterateVI m gamma k)).2 < epsilon ∧
        ∀ j, n ≤ j → j < k → epsilon ≤ (sweep m gamma (iterateVI m gamma j)).2 := by
  intro fuel
  induction fuel with
  | zero => intro n r h; cases h
  | succ fl ih =>
    intro n r h
    rw [vi_loop_succ] at h
    split_ifs at h with hlt
    · cases h
      exact ⟨n, le_refl n, by omega, rfl, hlt, fun j h1 h2 => absurd (lt_of_le_of_lt h1 h2) (lt_irrefl n)⟩
    · have hnext : (sweep m gamma (iterateVI m gamma n)).1 = iterateVI m gamma (n + 1) := rfl
      rw [hnext] at h
      obtain ⟨k, hk1, hk2, hk3, hk4, hk5⟩ := ih (n + 1) r h
      refine ⟨k, by omega, by omega, hk3, hk4, ?_⟩
      intro j hj1 hj2
      rcases eq_or_lt_of_le hj1 with rfl | hjgt
      · exact le_of_not_lt hlt
      · exact hk5 j (by omega) hj2

/-! ### Terminal states -/

/-- From a terminal state every per-action expected utility is `0`. -/
theorem get_transition_probs_terminal (m : MDP) (s : GState)
    (h : m.is_terminal s = true) (u : GState → ℚ) :
    m.get_transition_probs s u = [0, 0, 0, 0] := by
  simp only [MDP.get_transition_probs, MDP.get_actions, List.map_cons, List.map_nil]
  rw [foldl_add_eq, foldl_add_eq, foldl_add_eq, foldl_add_eq]
  simp [MDP.get_transition_prob, h]

/-- The Bellman update of a terminal state is exactly its reward. -/
theorem bellman_terminal (m : MDP) (gamma : ℚ) (u : GState → ℚ) (s : GState)
    (h : m.is_terminal s = true) :
    bellman m gamma u s = m.get_reward s := by
  rw [bellman, get_transition_probs_terminal m s h u]
  simp [pymax]

/-! ### Concrete runs of the solver on the example configurations -/

theorem ex2M_d1 : (sweep ex2M (9/10) viInit).2 = 10 := by
  norm_num [sweep, sweep_aux, bellman, MDP.get_reward, MDP.get_transition_probs,
    MDP.get_actions, MDP.get_states, MDP.get_transition_prob, MDP.is_terminal,
    MDP.succ_up, MDP.succ_right, MDP.succ_down, MDP.succ_left, dset, dadd,
    pymax, viInit, ex2M, lookup, List.range_succ, Prod.ext_iff]

theorem ex2M_u1_v1 : ((sweep ex2M (9/10) viInit).1) (1, 1) = 0 := by
  norm_num [sweep, sweep_aux, bellman, MDP.get_reward, MDP.get_transition_probs,
    MDP.get_actions, MDP.get_states, MDP.get_transition_prob, MDP.is_terminal,
    MDP.succ_up, MDP.succ_right, MDP.succ_down, MDP.succ_left, dset, dadd,
    pymax, viInit, ex2M, lookup, List.range_succ, Prod.ext_iff]

theorem ex2M_d2 : (sweep ex2M (9/10) ((sweep ex2M (9/10) viInit).1)).2 = 9 := by
  norm_num [sweep, sweep_aux, bellman, MDP.get_reward, MDP.get_transition_probs,
    MDP.get_actions, MDP.get_states, MDP.get_transition_prob, MDP.is_terminal,
    MDP.succ_up, MDP.succ_right, MDP.succ_down, MDP.succ_left, dset, dadd,
    pymax, viInit, ex2M, lookup, List.range_succ, Prod.ext_iff]

theorem ex2M_d3 : (sweep ex2M (9/10) u2ex).2 = 0 := by
  norm_num [u2ex, sweep, sweep_aux, bellman, MDP.get_reward, MDP.get_transition_probs,
    MDP.get_actions, MDP.get_states, MDP.get_transition_prob, MDP.is_terminal,
    MDP.succ_up, MDP.succ_right, MDP.succ_down, MDP.succ_left, dset, dadd,
    pymax, viInit, ex2M, lookup, List.range_succ, Prod.ext_iff]

theorem ex2M_v1 : u2ex (1, 1) = 9 := by
  norm_num [u2ex, sweep, sweep_aux, bellman, MDP.get_reward, MDP.get_transition_probs,
    MDP.get_actions, MDP.get_states, MDP.get_transition_prob, MDP.is_terminal,
    MDP.succ_up, MDP.succ_right, MDP.succ_down, MDP.succ_left, dset, dadd,
    pymax, viInit, ex2M, lookup, List.range_succ, Prod.ext_iff]

theorem ex2M_v2 : u2ex (2, 1) = 10 := by
  norm_num [u2ex, sweep, sweep_aux, bellman, MDP.get_reward, MDP.get_transition_probs,
    MDP.get_actions, MDP.get_states, MDP.get_transition_prob, MDP.is_terminal,
    MDP.succ_up, MDP.succ_right, MDP.succ_down, MDP.succ_left, dset, dadd,
    pymax, viInit, ex2M, lookup, List.range_succ, Prod.ext_iff]

/-- Running the solver on the 1×2 scenario with any tolerance in `(0, 9]`
takes exactly three sweeps and returns the buffer written by the second. -/
theorem vi_ex2M_eq (epsilon : ℚ) (h0 : 0 < epsilon) (h9 : epsilon ≤ 9)
    (fuel : ℕ) (hf : 3 ≤ fuel) :
    value_iteration fuel ex2M (9/10) epsilon = some u2ex := by
  obtain ⟨f, rfl⟩ : ∃ f, fuel = f + 3 := ⟨fuel - 3, by omega⟩
  have e3 : f + 3 = (f + 2) + 1 := rfl
  have e2 : f + 2 = (f + 1) + 1 := rfl
  rw [value_iteration, e3, vi_loop_succ, ex2M_d1,
    if_neg (by linarith : ¬ (10 : ℚ) < epsilon), e2, vi_loop_succ, ex2M_d2,
    if_neg (by linarith : ¬ (9 : ℚ) < epsilon)]
  show vi_loop ex2M (9/10) epsilon (f + 1) u2ex = some u2ex
  rw [vi_loop_succ, ex2M_d3, if_pos h0]

theorem cexM_d1 : (sweep cexM (1/2) viInit).2 = 1 := by
  norm_num [sweep, sweep_aux, bellman, MDP.get_reward, MDP.get_transition_probs,
    MDP.get_actions, MDP.get_states, MDP.get_transition_prob, MDP.is_terminal,
    MDP.succ_up, MDP.succ_right, MDP.succ_down, MDP.succ_left, dset, dadd,
    pymax, viInit, cexM, lookup, List.range_succ, Prod.ext_iff]

theorem cexM_s1 : (sweep cexM (1/2) viInit).1 (1, 1) = 1 := by
  norm_num [sweep, sweep_aux, bellman, MDP.get_reward, MDP.get_transition_probs,
    MDP.get_actions, MDP.get_states, MDP.get_transition_prob, MDP.is_terminal,
    MDP.succ_up, MDP.succ_right, MDP.succ_down, MDP.succ_left, dset, dadd,
    pymax, viInit, cexM, lookup, List.range_succ, Prod.ext_iff]

/-- On the rewarding non-terminal 1×1 grid with `epsilon = 2`, the loop
stops after its very first sweep and hands back the untouched all-zero
initialisation. -/
theorem vi_cexM_eq : value_iteration 1 cexM (1/2) 2 = some viInit := by
  rw [value_iteration, show (1 : ℕ) = 0 + 1 from rfl, vi_loop_succ, cexM_d1]
  norm_num

theorem cexT_d1 : (sweep cexT (1/2) viInit).2 = 1 := by
  norm_num [sweep, sweep_aux, bellman, MDP.get_reward, MDP.get_transition_probs,
    MDP.get_actions, MDP.get_states, MDP.get_transition_prob, MDP.is_terminal,
    MDP.succ_up, MDP.succ_right, MDP.succ_down, MDP.succ_left, dset, dadd,
    pymax, viInit, cexT, lookup, List.range_succ, Prod.ext_iff]

/-- On the terminal 1×1 grid with `epsilon = 2`, the loop also stops after
one sweep and returns the all-zero initialisation. -/
theorem vi_cexT_eq : value_iteration 1 cexT (1/2) 2 = some viInit := by
  rw [value_iteration, show (1 : ℕ) = 0 + 1 from rfl, vi_loop_succ, cexT_d1]
  norm_num

theorem lookup_eq_none (l : List (GState × ℚ)) (s : GState)
    (h : ∀ p ∈ l, p.1 ≠ s) : lookup l s = none := by
  induction l with
  | nil => rfl
  | cons p rest ih =>
    have hp : p.1 ≠ s := h p (List.mem_cons_self _ _)
    simp only [lookup, if_neg hp]
    exact ih fun q hq => h q (List.mem_cons_of_mem _ hq)

/-! ### Claims -/

/-- Claim C1 (counterexample): on the non-terminal 1×1 grid `cexM` with
`gamma = 1/2` and `epsilon = 2`, the loop stops after its first sweep and
returns utility `0` for the single state, while the sweep it just executed
computed the value `1` for that state — so the returned mapping is not the
one produced by the last executed sweep. -/
theorem c1_counterexample :
    (value_iteration 1 cexM (1/2) 2).map (fun u => u (1, 1)) = some 0 ∧
    (sweep cexM (1/2) viInit).1 (1, 1) = 1 ∧ (0 : ℚ) ≠ 1 := by
  refine ⟨?_, cexM_s1, by norm_num⟩
  rw [vi_cexM_eq]
  rfl

/-- Claim C1 (amended): `value_iteration` returns the snapshot taken at the
start of the last executed sweep — the iterate produced by the
second-to-last sweep (the all-zero initialisation when only one sweep
runs), i.e. the first iterate whose following sweep has `delta < epsilon` —
and not the utilities written by that final sweep. -/
theorem c1_returns_pre_final_snapshot (m : MDP) (gamma epsilon : ℚ)
    (fuel : ℕ) (r : GState → ℚ)
    (h : value_iteration fuel m gamma epsilon = some r) :
    ∃ k, k < fuel ∧ r = iterateVI m gamma k ∧
      (sweep m gamma r).2 < epsilon ∧
      ∀ j, j < k → epsilon ≤ (sweep m gamma (iterateVI m gamma j)).2 := by
  have h0 : vi_loop m gamma epsilon fuel (iterateVI m gamma 0) = some r := h
  obtain ⟨k, _, hk2, hk3, hk4, hk5⟩ := vi_loop_iterates m gamma epsilon fuel 0 r h0
  refine ⟨k, by omega, hk3, ?_, fun j hj => hk5 j (Nat.zero_le j) hj⟩
  rw [hk3]
  exact hk4

/-- Witness for C1: the concrete run on `cexM` instantiating the theorem. -/
theorem c1_witness :
    value_iteration 1 cexM (1/2) 2 = some viInit ∧
    ∃ k, k < 1 ∧ viInit = iterateVI cexM (1/2) k ∧
      (sweep cexM (1/2) viInit).2 < 2 ∧
      ∀ j, j < k → 2 ≤ (sweep cexM (1/2) (iterateVI cexM (1/2) j)).2 :=
  ⟨vi_cexM_eq, c1_returns_pre_final_snapshot cexM (1/2) 2 1 viInit vi_cexM_eq⟩

/-- Claim C2 (counterexample): with `epsilon = 10 > 0`, value iteration on
the 1×2 scenario returns utility `0` (not `9`) for state `(1,1)`: the
first sweep's `delta` is exactly `10`, the second sweep's is `9 < 10`, and
the snapshot returned is the first sweep's buffer, in which `(1,1)` still
holds `0`. -/
theorem c2_counterexample :
    (0 : ℚ) < 10 ∧
    (value_iteration 2 ex2M (9/10) 10).map (fun u => u (1, 1)) = some 0 ∧
    (0 : ℚ) ≠ 9 := by
  refine ⟨by norm_num, ?_, by norm_num⟩
  rw [value_iteration, show (2 : ℕ) = 1 + 1 from rfl, vi_loop_succ, ex2M_d1,
    if_neg (by norm_num : ¬ (10 : ℚ) < 10),
    show (1 : ℕ) = 0 + 1 from rfl, vi_loop_succ, ex2M_d2,
    if_pos (by norm_num : (9 : ℚ) < 10)]
  show some (((sweep ex2M (9/10) viInit).1) (1, 1)) = some 0
  rw [ex2M_u1_v1]

/-- Claim C2 (amended): for the 1×2 scenario (`numRows=1, numCols=2`,
terminal `(2,1)` with reward `10`, default reward `0`, `probForward=1`,
`probSide=0`, `gamma=9/10`) and every `epsilon` with `0 < epsilon ≤ 9`
(rather than every `epsilon > 0`), the returned mapping has
`U[(1,1)] = 9` and `U[(2,1)] = 10`. -/
theorem c2_converged_scenario (epsilon : ℚ) (fuel : ℕ)
    (h0 : 0 < epsilon) (h9 : epsilon ≤ 9) (hf : 3 ≤ fuel) :
    (value_iteration fuel ex2M (9/10) epsilon).map
      (fun u => (u (1, 1), u (2, 1))) = some (9, 10) := by
  rw [vi_ex2M_eq epsilon h0 h9 fuel hf]
  show some (u2ex (1, 1), u2ex (2, 1)) = some (9, 10)
  rw [ex2M_v1, ex2M_v2]

/-- Witness for C2: the amended theorem applied at `epsilon = 1`, fuel 3. -/
theorem c2_witness :
    (0 : ℚ) < 1 ∧ (1 : ℚ) ≤ 9 ∧ 3 ≤ 3 ∧
    (value_iteration 3 ex2M (9/10) 1).map
      (fun u => (u (1, 1), u (2, 1))) = some (9, 10) :=
  ⟨by norm_num, by norm_num, le_refl 3,
    c2_converged_scenario 1 3 (by norm_num) (by norm_num) (le_refl 3)⟩

/-- Claim C3: for every non-terminal in-grid state `s` and every action,
the transition probabilities to all grid states sum to
`prob_forw + 2 * prob_side`, coinciding wall-clamped outcomes being summed
rather than overwritten. -/
theorem c3_probability_conservation (m : MDP) (s : GState)
    (hs : s ∈ m.get_states) (ht : m.is_terminal s = false) (a : Act) :
    (m.get_states.map fun t => m.get_transition_prob s a t).sum =
      m.prob_forw + 2 * m.prob_side := by
  obtain ⟨x, y⟩ := s
  obtain ⟨h1, h2, h3, h4⟩ := (mem_get_states m x y).1 hs
  obtain ⟨hu, hr, hd, hl⟩ := succs_mem_get_states m x y h1 h2 h3 h4
  cases a with
  | up =>
    simp only [transition_prob_up m (x, y) ht]
    exact sum_succ_prob m _ _ _ hu hr hl
  | right =>
    simp only [transition_prob_right m (x, y) ht]
    exact sum_succ_prob m _ _ _ hr hu hd
  | down =>
    simp only [transition_prob_down m (x, y) ht]
    exact sum_succ_prob m _ _ _ hd hr hl
  | left =>
    simp only [transition_prob_left m (x, y) ht]
    exact sum_succ_prob m _ _ _ hl hu hd

/-- Witness for C3: the non-terminal state `(1,1)` of the 1×2 scenario
under action `up`. -/
theorem c3_witness :
    (1, 1) ∈ ex2M.get_states ∧ ex2M.is_terminal (1, 1) = false ∧
    (ex2M.get_states.map fun t => ex2M.get_transition_prob (1, 1) Act.up t).sum =
      ex2M.prob_forw + 2 * ex2M.prob_side :=
  ⟨by decide, by decide,
    c3_probability_conservation ex2M (1, 1) (by decide) (by decide) Act.up⟩

/-- Claim C4: one sweep of the loop, as a function of the snapshot taken at
its start, writes every grid state's utility as
`reward(s) + gamma * max(expected utilities per action)` evaluated against
that snapshot only — a synchronous (Jacobi) Bellman backup in which no
update reads a value written earlier in the same sweep. -/
theorem c4_synchronous_bellman_backup (m : MDP) (gamma : ℚ)
    (u : GState → ℚ) (s : GState) (hs : s ∈ m.get_states) :
    (sweep m gamma u).1 s =
      m.get_reward s + gamma * pymax (m.get_transition_probs s u) := by
  rw [sweep_fst m gamma u s hs]
  rfl

/-- Witness for C4: state `(2,1)` of the 1×2 scenario, first sweep. -/
theorem c4_witness :
    (2, 1) ∈ ex2M.get_states ∧
    (sweep ex2M (9/10) viInit).1 (2, 1) =
      ex2M.get_reward (2, 1) +
        (9/10) * pymax (ex2M.get_transition_probs (2, 1) viInit) :=
  ⟨by decide, c4_synchronous_bellman_backup ex2M (9/10) viInit (2, 1) (by decide)⟩

/-- Claim C5 (counterexample): on the 1×1 grid whose single state is
terminal with reward `1`, running with `epsilon = 2` stops after the first
sweep and returns the all-zero initialisation, so the terminal state's
returned utility is `0`, not its reward `1`. -/
theorem c5_counterexample :
    cexT.is_terminal (1, 1) = true ∧ cexT.get_reward (1, 1) = 1 ∧
    (value_iteration 1 cexT (1/2) 2).map (fun u => u (1, 1)) = some 0 ∧
    (0 : ℚ) ≠ 1 := by
  refine ⟨by decide, rfl, ?_, by norm_num⟩
  rw [vi_cexT_eq]
  rfl

/-- Claim C5 (amended): provided the first sweep does not already converge
(`epsilon ≤` the first sweep's `delta`, so the returned mapping is a buffer
written by a completed sweep rather than the all-zero initialisation),
every terminal grid state's returned utility equals its reward, with no
contribution from successor utilities. -/
theorem c5_terminal_utility_is_reward (m : MDP) (gamma epsilon : ℚ)
    (fuel : ℕ) (r : GState → ℚ)
    (heps : epsilon ≤ (sweep m gamma viInit).2)
    (h : value_iteration fuel m gamma epsilon = some r)
    (s : GState) (hs : s ∈ m.get_states) (ht : m.is_terminal s = true) :
    r s = m.get_reward s := by
  cases fuel with
  | zero => cases h
  | succ n =>
    rw [value_iteration, vi_loop_succ] at h
    split_ifs at h with hlt
    · exact absurd hlt (not_lt.2 heps)
    · rcases vi_loop_sweep_or_eq m gamma epsilon n _ _ h with heq | ⟨w, hw⟩
      · rw [heq, sweep_fst m gamma viInit s hs, bellman_terminal m gamma viInit s ht]
      · rw [hw, sweep_fst m gamma w s hs, bellman_terminal m gamma w s ht]

/-- Witness for C5: terminal state `(2,1)` of the 1×2 scenario with
`epsilon = 1`, which needs three sweeps. -/
theorem c5_witness :
    (1 : ℚ) ≤ (sweep ex2M (9/10) viInit).2 ∧
    value_iteration 3 ex2M (9/10) 1 = some u2ex ∧
    (2, 1) ∈ ex2M.get_states ∧ ex2M.is_terminal (2, 1) = true ∧
    u2ex (2, 1) = ex2M.get_reward (2, 1) :=
  ⟨by rw [ex2M_d1]; norm_num,
    vi_ex2M_eq 1 (by norm_num) (by norm_num) 3 (le_refl 3),
    by decide, by decide,
    c5_terminal_utility_is_reward ex2M (9/10) 1 3 u2ex
      (by rw [ex2M_d1]; norm_num)
      (vi_ex2M_eq 1 (by norm_num) (by norm_num) 3 (le_refl 3))
      (2, 1) (by decide) (by decide)⟩

/-- Claim C6: from a terminal state, every action/successor pair has
transition probability `0`. -/
theorem c6_terminal_absorption (m : MDP) (s : GState) (a : Act) (t : GState)
    (h : m.is_terminal s = true) :
    m.get_transition_prob s a t = 0 := by
  simp [MDP.get_transition_prob, h]

/-- Witness for C6: the terminal state `(2,1)` of the 1×2 scenario. -/
theorem c6_witness :
    ex2M.is_terminal (2, 1) = true ∧
    ex2M.get_transition_prob (2, 1) Act.up (1, 1) = 0 :=
  ⟨by decide, c6_terminal_absorption ex2M (2, 1) Act.up (1, 1) (by decide)⟩

/-- Claim C7: the mapping returned by `value_iteration` is an
`epsilon`-approximate Bellman fixed point: for every grid state the
distance between its returned utility and its Bellman backup computed from
the returned mapping itself is below `epsilon` (the final sweep computes
exactly that backup, and its `delta` fell below `epsilon`). -/
theorem c7_returned_map_is_eps_fixed_point (m : MDP) (gamma epsilon : ℚ)
    (fuel : ℕ) (r : GState → ℚ)
    (h : value_iteration fuel m gamma epsilon = some r)
    (s : GState) (hs : s ∈ m.get_states) :
    |r s - (m.get_reward s + gamma * pymax (m.get_transition_probs s r))| <
      epsilon := by
  have hdelta : (sweep m gamma r).2 < epsilon :=
    vi_loop_delta m gamma epsilon fuel viInit r h
  have hbound : |bellman m gamma r s - r s| ≤ (sweep m gamma r).2 :=
    sweep_delta_bound m gamma r s hs
  have hlt := lt_of_le_of_lt hbound hdelta
  rw [abs_sub_comm] at hlt
  exact hlt

/-- Witness for C7: the run on the 1×2 scenario with `epsilon = 1`, state
`(1,1)`. -/
theorem c7_witness :
    value_iteration 3 ex2M (9/10) 1 = some u2ex ∧
    (1, 1) ∈ ex2M.get_states ∧
    |u2ex (1, 1) -
        (ex2M.get_reward (1, 1) +
          (9/10) * pymax (ex2M.get_transition_probs (1, 1) u2ex))| < 1 :=
  ⟨vi_ex2M_eq 1 (by norm_num) (by norm_num) 3 (le_refl 3), by decide,
    c7_returned_map_is_eps_fixed_point ex2M (9/10) 1 3 u2ex
      (vi_ex2M_eq 1 (by norm_num) (by norm_num) 3 (le_refl 3)) (1, 1) (by decide)⟩

/-- Claim C8: for every in-grid state `(x, y)` the four candidate
successors are the wall-clamped neighbors — up `(x, min(numRows, y+1))`,
down `(x, max(1, y-1))`, right `(min(numCols, x+1), y)`,
left `(max(1, x-1), y)` — each a valid in-grid state, equal to the input
when the move points into a boundary. -/
theorem c8_wall_clamped_neighbors (m : MDP) (x y : ℤ)
    (h1 : 1 ≤ x) (h2 : x ≤ (m.ncols : ℤ)) (h3 : 1 ≤ y) (h4 : y ≤ (m.nrows : ℤ)) :
    (m.succ_up (x, y) = (x, min (m.nrows : ℤ) (y + 1)) ∧
     m.succ_down (x, y) = (x, max 1 (y - 1)) ∧
     m.succ_right (x, y) = (min (m.ncols : ℤ) (x + 1), y) ∧
     m.succ_left (x, y) = (max 1 (x - 1), y)) ∧
    (m.succ_up (x, y) ∈ m.get_states ∧ m.succ_right (x, y) ∈ m.get_states ∧
     m.succ_down (x, y) ∈ m.get_states ∧ m.succ_left (x, y) ∈ m.get_states) ∧
    ((y = (m.nrows : ℤ) → m.succ_up (x, y) = (x, y)) ∧
     (y = 1 → m.succ_down (x, y) = (x, y)) ∧
     (x = (m.ncols : ℤ) → m.succ_right (x, y) = (x, y)) ∧
     (x = 1 → m.succ_left (x, y) = (x, y))) := by
  refine ⟨⟨rfl, rfl, rfl, rfl⟩,
    succs_mem_get_states m x y h1 h2 h3 h4, ?_, ?_, ?_, ?_⟩
  · intro hy
    exact Prod.ext_iff.2 ⟨rfl, by show min ((m.nrows : ℤ)) (y + 1) = y; omega⟩
  · intro hy
    exact Prod.ext_iff.2 ⟨rfl, by show max 1 (y - 1) = y; omega⟩
  · intro hx
    exact Prod.ext_iff.2 ⟨by show min ((m.ncols : ℤ)) (x + 1) = x; omega, rfl⟩
  · intro hx
    exact Prod.ext_iff.2 ⟨by show max 1 (x - 1) = x; omega, rfl⟩

/-- Witness for C8: the corner state `(2,1)` of the 1×2 grid. -/
theorem c8_witness :
    (1 : ℤ) ≤ 2 ∧ (2 : ℤ) ≤ (ex2M.ncols : ℤ) ∧ (1 : ℤ) ≤ 1 ∧
      (1 : ℤ) ≤ (ex2M.nrows : ℤ) ∧
    ((ex2M.succ_up (2, 1) = (2, min (ex2M.nrows : ℤ) (1 + 1)) ∧
      ex2M.succ_down (2, 1) = (2, max 1 (1 - 1)) ∧
      ex2M.succ_right (2, 1) = (min (ex2M.ncols : ℤ) (2 + 1), 1) ∧
      ex2M.succ_left (2, 1) = (max 1 (2 - 1), 1)) ∧
     (ex2M.succ_up (2, 1) ∈ ex2M.get_states ∧
      ex2M.succ_right (2, 1) ∈ ex2M.get_states ∧
      ex2M.succ_down (2, 1) ∈ ex2M.get_states ∧
      ex2M.succ_left (2, 1) ∈ ex2M.get_states) ∧
     (((1 : ℤ) = (ex2M.nrows : ℤ) → ex2M.succ_up (2, 1) = (2, 1)) ∧
      ((1 : ℤ) = 1 → ex2M.succ_down (2, 1) = (2, 1)) ∧
      ((2 : ℤ) = (ex2M.ncols : ℤ) → ex2M.succ_right (2, 1) = (2, 1)) ∧
      ((2 : ℤ) = 1 → ex2M.succ_left (2, 1) = (2, 1)))) :=
  ⟨by norm_num, by decide, by norm_num, by decide,
    c8_wall_clamped_neighbors ex2M 2 1 (by norm_num) (by decide) (by norm_num)
      (by decide)⟩

/-- Claim C9: model operations do not fail on out-of-grid states:
`get_reward` falls back to the configured default when the state is not in
the overrides, `is_terminal` is `false` when the state is not listed, and
`get_transition_prob` returns the degenerate value `0` for any successor
not among the computed wall-clamped outcomes. -/
theorem c9_out_of_grid_queries_total (m : MDP) (x y : ℤ)
    (_hout : ¬(1 ≤ x ∧ x ≤ (m.ncols : ℤ) ∧ 1 ≤ y ∧ y ≤ (m.nrows : ℤ))) :
    ((∀ p ∈ m.rewards, p.1 ≠ (x, y)) → m.get_reward (x, y) = m.reward_def) ∧
    ((x, y) ∉ m.terminals → m.is_terminal (x, y) = false) ∧
    (∀ (a : Act) (t : GState), t ≠ m.succ_up (x, y) → t ≠ m.succ_right (x, y) →
      t ≠ m.succ_down (x, y) → t ≠ m.succ_left (x, y) →
      m.get_transition_prob (x, y) a t = 0) := by
  refine ⟨?_, ?_, ?_⟩
  · intro hno
    rw [MDP.get_reward, lookup_eq_none m.rewards (x, y) hno]
  · intro hnm
    simp [MDP.is_terminal, hnm]
  · intro a t n1 n2 n3 n4
    by_cases hterm : m.is_terminal (x, y) = true
    · simp [MDP.get_transition_prob, hterm]
    · have hf : m.is_terminal (x, y) = false := by
        simpa using hterm
      cases a with
      | up =>
        rw [transition_prob_up m (x, y) hf]
        simp [n1, n2, n4]
      | right =>
        rw [transition_prob_right m (x, y) hf]
        simp [n2, n1, n3]
      | down =>
        rw [transition_prob_down m (x, y) hf]
        simp [n3, n2, n4]
      | left =>
        rw [transition_prob_left m (x, y) hf]
        simp [n4, n1, n3]

/-- Witness for C9: the out-of-grid state `(0, 5)` of the 1×2 scenario. -/
theorem c9_witness :
    ¬(1 ≤ (0 : ℤ) ∧ (0 : ℤ) ≤ (ex2M.ncols : ℤ) ∧ 1 ≤ (5 : ℤ) ∧
        (5 : ℤ) ≤ (ex2M.nrows : ℤ)) ∧
    (((∀ p ∈ ex2M.rewards, p.1 ≠ ((0 : ℤ), (5 : ℤ))) →
        ex2M.get_reward (0, 5) = ex2M.reward_def) ∧
     (((0 : ℤ), (5 : ℤ)) ∉ ex2M.terminals → ex2M.is_terminal (0, 5) = false) ∧
     (∀ (a : Act) (t : GState), t ≠ ex2M.succ_up (0, 5) →
        t ≠ ex2M.succ_right (0, 5) → t ≠ ex2M.succ_down (0, 5) →
        t ≠ ex2M.succ_left (0, 5) → ex2M.get_transition_prob (0, 5) a t = 0)) :=
  ⟨by decide, c9_out_of_grid_queries_total ex2M 0 5 (by decide)⟩

/-- Claim C10: `get_states` is exactly the Cartesian product
`{1..numCols} × {1..numRows}` as `(x, y)` pairs in column-major order:
outer loop over `x` from `1` to `numCols`, inner loop over `y` from `1` to
`numRows`. -/
theorem c10_states_cartesian_product (m : MDP) :
    m.get_states = (List.range' 1 m.ncols).flatMap fun (x : ℕ) =>
      (List.range' 1 m.nrows).map fun (y : ℕ) => (((x : ℤ), (y : ℤ)) : GState) := by
  rw [MDP.get_states, List.range'_eq_map_range, List.range'_eq_map_range,
    List.flatMap_map]
  refine congrArg _ (funext fun a => ?_)
  rw [List.map_map]
  refine List.map_congr_left fun j _ => ?_
  simp only [Function.comp, Prod.mk.injEq]
  constructor <;> push_cast <;> ring

end Gridworld
